import Mathlib

/-!
Verification of the gantt_disp reporting pipeline (`App_Gantt.py`, legacy `Old/Gantt.py`).

Shallow embedding conventions:
* Dates (`pandas.Timestamp` values produced by `pd.to_datetime` from calendar-date
  spreadsheet cells) are modelled as natural-number day indices; the source columns
  `Início` and `Término` become the fields `ini` and `fim`.
* DataFrames become lists of records; a possibly-missing column value becomes `Option`.
* `DataFrame.sort_values` with several key columns delegates to NumPy's `lexsort`,
  a stable lexicographic sort with nulls placed last (`na_position='last'`); it is
  modelled by the stable insertion sort `sortStable` (a stable sort for a total
  preorder has a unique result, so any stable sort models it faithfully).
* Loader file and parse failures (`pd.read_excel` exceptions) are modelled with
  `Except`; the spreadsheet-decoding bodies of the loaders are I/O adapters outside
  the core and enter the model only through their already-decoded row lists.
-/

/-- The fixed discipline enumeration `Config.DISCIPLINA_ORDER = ["ELET", "INST", "MEC"]`. -/
def DISCIPLINA_ORDER : List String := ["ELET", "INST", "MEC"]

/-- A row of `equipe_df` (the roster sheet `Equipe` after column selection):
`Disciplina`, `Matrícula`, `Função`, `Projeto`, `Experiência`, `Nome`.
Optional fields model possibly-missing (NaN) cells. -/
structure Membro where
  disciplina : Option String
  matricula : Nat
  funcao : Option String
  projeto : Option String
  experiencia : Option String
  nome : Option String
deriving DecidableEq

/-- A normalized event row handed to `prepare_combined_data` (columns kept by
`cols_to_keep`): `Matrícula`, `Início` (`ini`), `Término` (`fim`), `Tipo`, and the
optional `Nome` / `Detalhamento` columns. -/
structure Evento where
  matricula : Nat
  nome : Option String
  ini : Nat
  fim : Nat
  tipo : String
  detalhamento : Option String
deriving DecidableEq

/-- An enriched event row after the left merge with `equipe_df` in
`prepare_combined_data` (employee fields resolved, `Nome` filled from the roster
when missing, `Disciplina` cast to the ordered categorical). -/
structure EventoE where
  matricula : Nat
  nome : Option String
  ini : Nat
  fim : Nat
  tipo : String
  detalhamento : Option String
  disciplina : Option String
  funcao : Option String
  projeto : Option String
deriving DecidableEq

/-- Categorical code of a discipline under
`pd.CategoricalDtype(Config.DISCIPLINA_ORDER, ordered=True)`: the index in the
enumeration; values outside the enumeration (and missing values) become `none`
(pandas `NaN`). -/
def discCode (d : Option String) : Option Nat :=
  d.bind fun s => DISCIPLINA_ORDER.indexOf? s

/-- The effect of `astype(disciplina_type)` on a stored discipline value: values
outside the fixed enumeration become missing. -/
def castDisc (d : Option String) : Option String :=
  d.bind fun s => if s ∈ DISCIPLINA_ORDER then some s else none

/-! ## A stable sort, modelling `DataFrame.sort_values` on multiple keys -/

section StableSort

variable {α : Type} (leB : α → α → Bool)

/-- Insert `a` into `l` before the first element `b` with `leB a b`. -/
def insertStable (a : α) : List α → List α
  | [] => [a]
  | b :: l => if leB a b then a :: b :: l else b :: insertStable a l

/-- Stable insertion sort with respect to the boolean comparison `leB`. -/
def sortStable : List α → List α
  | [] => []
  | a :: l => insertStable leB a (sortStable l)

theorem insertStable_perm (a : α) (l : List α) :
    (insertStable leB a l).Perm (a :: l) := by
  induction l with
  | nil => simp [insertStable]
  | cons b l ih =>
    simp only [insertStable]
    split
    · exact List.Perm.refl _
    · exact (ih.cons b).trans (List.Perm.swap a b l)

theorem sortStable_perm (l : List α) : (sortStable leB l).Perm l := by
  induction l with
  | nil => simp [sortStable]
  | cons a l ih =>
    exact (insertStable_perm leB a _).trans (ih.cons a)

theorem insertStable_pairwise
    (total : ∀ x y, leB x y = true ∨ leB y x = true)
    (htrans : ∀ x y z, leB x y = true → leB y z = true → leB x z = true)
    (a : α) {l : List α} (h : l.Pairwise fun x y => leB x y = true) :
    (insertStable leB a l).Pairwise fun x y => leB x y = true := by
  induction l with
  | nil => simp [insertStable]
  | cons b l ih =>
    rcases List.pairwise_cons.mp h with ⟨hb, hl⟩
    simp only [insertStable]
    split
    case isTrue hab =>
      refine List.pairwise_cons.mpr ⟨?_, h⟩
      intro y hy
      rcases List.mem_cons.mp hy with rfl | hy
      · exact hab
      · exact htrans a b y hab (hb y hy)
    case isFalse hab =>
      have hba : leB b a = true := by
        rcases total a b with h1 | h1
        · exact absurd h1 hab
        · exact h1
      refine List.pairwise_cons.mpr ⟨?_, ih hl⟩
      intro y hy
      rcases List.mem_cons.mp ((insertStable_perm leB a l).mem_iff.mp hy) with rfl | hy
      · exact hba
      · exact hb y hy

theorem sortStable_pairwise
    (total : ∀ x y, leB x y = true ∨ leB y x = true)
    (htrans : ∀ x y z, leB x y = true → leB y z = true → leB x z = true)
    (l : List α) :
    (sortStable leB l).Pairwise fun x y => leB x y = true := by
  induction l with
  | nil => simp [sortStable]
  | cons a l ih => exact insertStable_pairwise leB total htrans a ih

theorem insertStable_filter (q : α → Bool) (a : α) (l : List α)
    (hq : q a = true → ∀ b, q b = true → leB a b = true) :
    (insertStable leB a l).filter q =
      if q a then a :: l.filter q else l.filter q := by
  induction l with
  | nil => cases hqa : q a <;> simp [insertStable, List.filter, hqa]
  | cons b l ih =>
    simp only [insertStable]
    split
    case isTrue hab =>
      by_cases hqa : q a = true
      · simp [List.filter_cons, hqa]
      · simp [List.filter_cons, Bool.of_not_eq_true hqa]
    case isFalse hab =>
      have hqb : ¬(q a = true ∧ q b = true) := by
        rintro ⟨ha, hbq⟩
        exact hab (hq ha b hbq)
      by_cases hqa : q a = true
      · have hqb' : q b = false := by
          cases hbq : q b
          · rfl
          · exact absurd ⟨hqa, hbq⟩ hqb
        simp [List.filter_cons, hqb', ih, hqa]
      · simp [List.filter_cons, Bool.of_not_eq_true hqa, ih]

theorem sortStable_filter (q : α → Bool)
    (hq : ∀ x y, q x = true → q y = true → leB x y = true) (l : List α) :
    (sortStable leB l).filter q = l.filter q := by
  induction l with
  | nil => rfl
  | cons a l ih =>
    simp only [sortStable]
    rw [insertStable_filter leB q a _ (fun ha b hbq => hq a b ha hbq), ih,
      List.filter_cons]

end StableSort

/-! ## Sort keys

`sort_values(by=['Matrícula', 'Início'])` (the detector) and
`sort_values(by=['Disciplina', 'Função', 'Projeto', 'Nome'])` (the member ordering)
sort lexicographically on their key columns with missing values last.  We model a
missing value via `WithTop` (so that `⊤` = `NaN` sorts last) and order strings by
their character data (decidable, unlike `String.le`'s native implementation). -/

/-- Lift an optional key into `WithTop`, sending a missing value to `⊤` (pandas
`na_position='last'`). -/
def optTop {α : Type} : Option α → WithTop α
  | none => ⊤
  | some a => (a : WithTop α)

/-- A string's sort key: its character list (lexicographic character order). -/
def strKey (s : String) : List Char := s.data

/-- Sort key of a combined event row for the detector's
`sort_values(by=['Matrícula', 'Início'])`. -/
def chaveEvento (e : EventoE) : Lex (Nat × Nat) := toLex (e.matricula, e.ini)

/-- Boolean comparison on combined event rows: `Matrícula` then `Início`. -/
def leEvento (a b : EventoE) : Bool := decide (chaveEvento a ≤ chaveEvento b)

/-- Sort key of a roster row for
`sort_values(by=['Disciplina', 'Função', 'Projeto', 'Nome'])` after
`Disciplina` was cast to the ordered categorical: the categorical code of the
discipline, then role, project and name, each with missing values last. -/
def chaveMembro (m : Membro) :
    Lex (WithTop Nat × Lex (WithTop (List Char) × Lex (WithTop (List Char) × WithTop (List Char)))) :=
  toLex (optTop (discCode m.disciplina),
    toLex (optTop (m.funcao.map strKey),
      toLex (optTop (m.projeto.map strKey), optTop (m.nome.map strKey))))

/-- Boolean comparison on roster rows: `Disciplina` (enumeration order), `Função`,
`Projeto`, `Nome`, missing values last. -/
def leMembro (a b : Membro) : Bool := decide (chaveMembro a ≤ chaveMembro b)

/-! ## The pipeline (`DataProcessor` in `App_Gantt.py`) -/

/-- `DataProcessor.prepare_combined_data`: keep only events whose `Matrícula`
occurs in the roster, concatenate the sources, left-merge with the roster on
`Matrícula` (filling a missing `Nome` from the roster and casting `Disciplina`
to the ordered categorical), and sort the roster into `unique_members` by
`['Disciplina', 'Função', 'Projeto', 'Nome']`. -/
def prepare_combined_data (equipe : List Membro)
    (dfs_eventos : List (Option (List Evento))) : List EventoE × List Membro :=
  let matriculas_validas := equipe.map fun m => m.matricula
  let valid_dfs := dfs_eventos.filterMap fun odf =>
    match odf with
    | none => none
    | some df =>
      if df.isEmpty then none
      else some (df.filter fun e => decide (e.matricula ∈ matriculas_validas))
  let combined := valid_dfs.flatten
  let enriched := combined.flatMap fun e =>
    match equipe.filter (fun m => decide (m.matricula = e.matricula)) with
    | [] => [⟨e.matricula, e.nome, e.ini, e.fim, e.tipo, e.detalhamento, none, none, none⟩]
    | ms => ms.map fun m =>
        ⟨e.matricula, e.nome.orElse (fun _ => m.nome), e.ini, e.fim, e.tipo, e.detalhamento,
          castDisc m.disciplina, m.funcao, m.projeto⟩
  let unique_members := sortStable leMembro equipe
  (enriched, unique_members)

/-- `DataProcessor.get_available_members`: roster members with no event
intersecting the analysis window `[start_date, end_date]`
(`Início <= end_date and Término >= start_date`). -/
def get_available_members (equipe : List Membro) (combined_df : List EventoE)
    (start_date end_date : Nat) : List Membro :=
  if combined_df.isEmpty then equipe
  else
    let ocupados_ids := (combined_df.filter fun ev =>
      decide (ev.ini ≤ end_date) && decide (start_date ≤ ev.fim)).map fun ev => ev.matricula
    equipe.filter fun m => !decide (m.matricula ∈ ocupados_ids)

/-- The detector's sort `combined_df.sort_values(by=['Matrícula', 'Início'])`. -/
def sortCombined (combined_df : List EventoE) : List EventoE :=
  sortStable leEvento combined_df

/-- The detector's conflict condition between a row and its successor within the
same `Matrícula` group: `Término > Next_Inicio` (line 262 of `App_Gantt.py`). -/
def conflictCond (a b : EventoE) : Prop :=
  a.matricula = b.matricula ∧ b.ini < a.fim

instance (a b : EventoE) : Decidable (conflictCond a b) := by
  unfold conflictCond; exact inferInstance

/-- The flagged rows of the vectorized scan: each row of the sorted frame paired
with its successor (`shift(-1)` within the `Matrícula` group) when the conflict
condition holds.  On the sorted frame the successor within the group is the next
row exactly when it carries the same `Matrícula`. -/
def conflictPairs : List EventoE → List (EventoE × EventoE)
  | a :: b :: rest =>
    (if conflictCond a b then [(a, b)] else []) ++ conflictPairs (b :: rest)
  | _ => []

/-- One line of the conflict report (`saida` row): the employee's `Nome` and the
formatted description. -/
structure Conflito where
  nome : Option String
  conflito : String
deriving DecidableEq

/-- The report line built from a flagged row and its successor.  The source
renders the two dates with `strftime('%d/%m')`; calendar pretty-printing is
display-only, so the model prints the day index. -/
def formatConflito (a b : EventoE) : Conflito :=
  { nome := a.nome
    conflito := a.tipo ++ " (" ++ toString a.fim ++ ") x " ++ b.tipo ++ " ("
      ++ toString b.ini ++ ")" }

/-- `DataProcessor.detect_conflicts_vectorized`: sort by `['Matrícula', 'Início']`,
flag each row whose `Término` exceeds the next row's `Início` within the same
`Matrícula` group, and format one report line per flagged row. -/
def detect_conflicts_vectorized (combined_df : List EventoE) : List Conflito :=
  if combined_df.isEmpty then []
  else (conflictPairs (sortCombined combined_df)).map fun p => formatConflito p.1 p.2

/-! ## Loaders: the error-handling channel

The spreadsheet decoding inside each `try` block is external I/O; the model takes
the outcome of that block (`Except` of the raised error) and embeds the `except`
policies, which is where the loaders' error handling lives. -/

/-- Errors `pd.read_excel` may raise: a missing file, or any other parsing error. -/
inductive PdError
  | fileNotFound
  | parseError
deriving DecidableEq

/-- Display text of the caught exception (the `{e}` in the `st.error` messages). -/
def pdMsg : PdError → String
  | .fileNotFound => "FileNotFoundError"
  | .parseError => "ParseError"

/-- `DataLoader.load_estaleiro_data`: `except Exception as e` catches every error
and reports `(None, None)` with an `st.error` message. -/
def load_estaleiro_data (attempt : Except PdError (List Membro × List Evento)) :
    (Option (List Membro) × Option (List Evento)) × List String :=
  match attempt with
  | .ok (equipe_df, plan_df) => ((some equipe_df, some plan_df), [])
  | .error e => ((none, none), ["Erro ao carregar Estaleiro: " ++ pdMsg e])

/-- `DataLoader.load_ferias_data`: `except Exception as e` catches every error. -/
def load_ferias_data (attempt : Except PdError (List Evento)) :
    Option (List Evento) × List String :=
  match attempt with
  | .ok df => (some df, [])
  | .error e => (none, ["Erro ao carregar Férias: " ++ pdMsg e])

/-- `DataLoader.load_planejamento_geral`: `except Exception as e` catches every
error. -/
def load_planejamento_geral (attempt : Except PdError (List Evento)) :
    Option (List Evento) × List String :=
  match attempt with
  | .ok df => (some df, [])
  | .error e => (none, ["Erro ao carregar Planejamento Geral: " ++ pdMsg e])

/-- The legacy `read_estaleiro_data` (`Old/Gantt.py` and the `Gantt ST V1` half of
`App_Gantt.py`): only `except FileNotFoundError` is handled; any other exception
propagates to the caller, modelled by the `Except.error` result. -/
def read_estaleiro_data (attempt : Except PdError (List Membro × List Evento)) :
    Except PdError ((Option (List Membro) × Option (List Evento)) × List String) :=
  match attempt with
  | .ok (equipe_df, plan_df) => .ok ((some equipe_df, some plan_df), [])
  | .error .fileNotFound =>
    .ok ((none, none),
      ["Arquivo Planejamento Estaleiro.xlsx não encontrado. Por favor, verifique o caminho do arquivo."])
  | .error .parseError => .error .parseError

/-! ## Order facts about the sort keys -/

theorem strKey_inj {s t : String} (h : strKey s = strKey t) : s = t := by
  cases s; cases t
  simp only [strKey] at h
  rw [h]

/-- Spec-side strict order on optional key values with missing values last:
a present value precedes a missing one, and present values compare by `r`. -/
def optLt {α : Type} (r : α → α → Prop) : Option α → Option α → Prop
  | some x, some y => r x y
  | some _, none => True
  | none, _ => False

/-- Spec-side strict string order (lexicographic on characters). -/
def strLt (s t : String) : Prop := s.data < t.data

theorem optTop_lt_iff {α : Type} [Preorder α] {o1 o2 : Option α} :
    optTop o1 < optTop o2 ↔ optLt (· < ·) o1 o2 := by
  cases o1 <;> cases o2 <;>
    simp [optTop, optLt, WithTop.coe_lt_coe, WithTop.coe_lt_top, not_top_lt, lt_irrefl]

theorem optTop_eq_iff {α : Type} {o1 o2 : Option α} :
    optTop o1 = optTop o2 ↔ o1 = o2 := by
  cases o1 <;> cases o2 <;>
    simp [optTop, WithTop.coe_inj, WithTop.coe_ne_top, (WithTop.coe_ne_top).symm]

theorem optTop_le_iff {α : Type} [PartialOrder α] {o1 o2 : Option α} :
    optTop o1 ≤ optTop o2 ↔ (optLt (· < ·) o1 o2 ∨ o1 = o2) := by
  rw [le_iff_lt_or_eq, optTop_lt_iff, optTop_eq_iff]

theorem optTop_map_lt_iff {o1 o2 : Option String} :
    optTop (o1.map strKey) < optTop (o2.map strKey) ↔ optLt strLt o1 o2 := by
  rw [optTop_lt_iff]
  cases o1 <;> cases o2 <;> simp [optLt, strLt, strKey]

theorem optTop_map_eq_iff {o1 o2 : Option String} :
    optTop (o1.map strKey) = optTop (o2.map strKey) ↔ o1 = o2 := by
  rw [optTop_eq_iff]
  cases o1 <;> cases o2 <;> simp
  exact ⟨fun h => strKey_inj h, fun h => by rw [h]⟩

theorem optTop_map_le_iff {o1 o2 : Option String} :
    optTop (o1.map strKey) ≤ optTop (o2.map strKey) ↔ (optLt strLt o1 o2 ∨ o1 = o2) := by
  rw [le_iff_lt_or_eq, optTop_map_lt_iff, optTop_map_eq_iff]

/-- The ordering on employees described by the Ordering/Grouping Policy: primary
key discipline in the fixed enumeration order (its categorical code), then role,
then project, then name; at every level a missing value sorts last. -/
def specMemberLe (a b : Membro) : Prop :=
  optLt (· < ·) (discCode a.disciplina) (discCode b.disciplina) ∨
    (discCode a.disciplina = discCode b.disciplina ∧
      (optLt strLt a.funcao b.funcao ∨ (a.funcao = b.funcao ∧
        (optLt strLt a.projeto b.projeto ∨ (a.projeto = b.projeto ∧
          (optLt strLt a.nome b.nome ∨ a.nome = b.nome))))))

theorem chaveMembro_le_iff {a b : Membro} :
    chaveMembro a ≤ chaveMembro b ↔ specMemberLe a b := by
  show toLex _ ≤ toLex _ ↔ _
  rw [Prod.Lex.le_iff]
  show _ ∨ (_ ∧ toLex _ ≤ toLex _) ↔ _
  rw [Prod.Lex.le_iff]
  show _ ∨ (_ ∧ (_ ∨ (_ ∧ toLex _ ≤ toLex _))) ↔ _
  rw [Prod.Lex.le_iff]
  rw [optTop_lt_iff, optTop_eq_iff, optTop_map_lt_iff, optTop_map_eq_iff,
    optTop_map_lt_iff, optTop_map_eq_iff, optTop_map_le_iff]
  exact Iff.rfl

theorem leMembro_total (x y : Membro) : leMembro x y = true ∨ leMembro y x = true := by
  rcases le_total (chaveMembro x) (chaveMembro y) with h | h
  · exact Or.inl (decide_eq_true h)
  · exact Or.inr (decide_eq_true h)

theorem leMembro_trans (x y z : Membro) (hxy : leMembro x y = true)
    (hyz : leMembro y z = true) : leMembro x z = true :=
  decide_eq_true (le_trans (of_decide_eq_true hxy) (of_decide_eq_true hyz))

theorem leMembro_of_chave_eq {x y : Membro} (h : chaveMembro x = chaveMembro y) :
    leMembro x y = true :=
  decide_eq_true (le_of_eq h)

theorem leEvento_total (x y : EventoE) : leEvento x y = true ∨ leEvento y x = true := by
  rcases le_total (chaveEvento x) (chaveEvento y) with h | h
  · exact Or.inl (decide_eq_true h)
  · exact Or.inr (decide_eq_true h)

theorem leEvento_trans (x y z : EventoE) (hxy : leEvento x y = true)
    (hyz : leEvento y z = true) : leEvento x z = true :=
  decide_eq_true (le_trans (of_decide_eq_true hxy) (of_decide_eq_true hyz))

theorem leEvento_of_chave_eq {x y : EventoE} (h : chaveEvento x = chaveEvento y) :
    leEvento x y = true :=
  decide_eq_true (le_of_eq h)

theorem leEvento_iff {x y : EventoE} :
    leEvento x y = true ↔
      (x.matricula < y.matricula ∨ (x.matricula = y.matricula ∧ x.ini ≤ y.ini)) := by
  rw [leEvento, decide_eq_true_iff]
  exact Prod.Lex.le_iff (x.matricula, x.ini) (y.matricula, y.ini)

/-! ## Structure of the vectorized conflict scan -/

/-- The consecutive (immediately adjacent) pairs of a list:
`[x0, x1, x2, ...] ↦ [(x0, x1), (x1, x2), ...]`. -/
def adjPairs {α : Type} : List α → List (α × α)
  | a :: b :: rest => (a, b) :: adjPairs (b :: rest)
  | _ => []

theorem mem_adjPairs {α : Type} {p : α × α} :
    ∀ {l : List α}, p ∈ adjPairs l → p.1 ∈ l ∧ p.2 ∈ l := by
  intro l
  induction l with
  | nil => intro h; cases h
  | cons a l ih =>
    cases l with
    | nil => intro h; cases h
    | cons b rest =>
      intro h
      rcases List.mem_cons.mp h with h | h
      · rw [h]
        exact ⟨List.mem_cons_self a _, List.mem_cons_of_mem a (List.mem_cons_self b _)⟩
      · have := ih h
        exact ⟨List.mem_cons_of_mem a this.1, List.mem_cons_of_mem a this.2⟩

theorem conflictPairs_eq_adj_filter (l : List EventoE) :
    conflictPairs l = (adjPairs l).filter fun p => decide (conflictCond p.1 p.2) := by
  induction l with
  | nil => rfl
  | cons a l ih =>
    cases l with
    | nil => rfl
    | cons b rest =>
      show (if conflictCond a b then [(a, b)] else []) ++ conflictPairs (b :: rest)
        = List.filter _ ((a, b) :: adjPairs (b :: rest))
      rw [ih, List.filter_cons]
      by_cases h : conflictCond a b
      · simp [h]
      · simp [h]

theorem mem_conflictPairs_iff {p : EventoE × EventoE} :
    ∀ {l : List EventoE},
      p ∈ conflictPairs l ↔
        ((∃ l1 l2, l = l1 ++ p.1 :: p.2 :: l2) ∧ conflictCond p.1 p.2) := by
  intro l
  induction l with
  | nil =>
    constructor
    · intro h; cases h
    · rintro ⟨⟨l1, l2, h⟩, -⟩
      simp at h
  | cons a l ih =>
    cases l with
    | nil =>
      constructor
      · intro h; cases h
      · rintro ⟨⟨l1, l2, h⟩, -⟩
        rcases l1 with _ | ⟨x, l1⟩ <;> simp at h
    | cons b rest =>
      constructor
      · intro h
        rcases List.mem_append.mp h with h1 | h2
        · by_cases hc : conflictCond a b
          · rw [if_pos hc] at h1
            have hp := List.mem_singleton.mp h1
            subst hp
            exact ⟨⟨[], rest, rfl⟩, hc⟩
          · rw [if_neg hc] at h1
            cases h1
        · rcases ih.mp h2 with ⟨⟨l1, l2, hdec⟩, hc⟩
          exact ⟨⟨a :: l1, l2, by rw [List.cons_append, hdec]⟩, hc⟩
      · rintro ⟨⟨l1, l2, hdec⟩, hc⟩
        rcases l1 with _ | ⟨x, l1⟩
        · simp only [List.nil_append] at hdec
          injection hdec with h1 hdec
          injection hdec with h2 hdec
          refine List.mem_append.mpr (Or.inl ?_)
          rw [if_pos ?_]
          · rw [List.mem_singleton, Prod.ext_iff]
            exact ⟨h1.symm, h2.symm⟩
          · rw [h1, h2]; exact hc
        · injection hdec with h1 hdec
          subst h1
          exact List.mem_append.mpr (Or.inr (ih.mpr ⟨⟨l1, l2, hdec⟩, hc⟩))

/-- Within the sorted frame, `Matrícula` is non-decreasing. -/
theorem sortCombined_matricula_mono (combined_df : List EventoE) :
    (sortCombined combined_df).Pairwise fun x y => x.matricula ≤ y.matricula := by
  refine (sortStable_pairwise leEvento leEvento_total leEvento_trans combined_df).imp ?_
  intro x y hxy
  rcases leEvento_iff.mp hxy with h | ⟨h, -⟩
  · exact le_of_lt h
  · exact le_of_eq h

theorem filter_matricula_nil {m : Nat} {l : List EventoE}
    (h : ∀ x ∈ l, x.matricula ≠ m) :
    l.filter (fun r => decide (r.matricula = m)) = [] :=
  List.filter_eq_nil_iff.mpr fun x hx => by simpa using h x hx

theorem adj_filter_matricula_nil {m : Nat} {l : List EventoE}
    (h : ∀ x ∈ l, x.matricula ≠ m) :
    (adjPairs l).filter
      (fun p => decide (p.1.matricula = m) && decide (p.2.matricula = m)) = [] := by
  refine List.filter_eq_nil_iff.mpr ?_
  intro p hp
  have hx : p.1 ∈ l := (mem_adjPairs hp).1
  simp [h p.1 hx]

/-- For a frame whose `Matrícula` column is non-decreasing, the adjacent pairs of
one employee's sub-frame are exactly the adjacent pairs of the full frame whose
rows both carry that employee's `Matrícula` (the employee's rows form one
contiguous block, so `groupby('Matrícula').shift(-1)` pairs exactly the adjacent
rows of the block). -/
theorem adjPairs_filter_block (m : Nat) :
    ∀ (l : List EventoE), (l.Pairwise fun x y => x.matricula ≤ y.matricula) →
      adjPairs (l.filter fun r => decide (r.matricula = m))
        = (adjPairs l).filter fun p =>
            decide (p.1.matricula = m) && decide (p.2.matricula = m) := by
  intro l
  induction l with
  | nil => intro _; rfl
  | cons a l ih =>
    intro h
    rcases List.pairwise_cons.mp h with ⟨ha, hl⟩
    cases l with
    | nil =>
      by_cases ham : a.matricula = m <;> simp [List.filter_cons, ham, adjPairs]
    | cons b rest =>
      rcases List.pairwise_cons.mp hl with ⟨hb, hrest⟩
      by_cases ham : a.matricula = m
      · by_cases hbm : b.matricula = m
        · have ihh := ih hl
          rw [List.filter_cons, if_pos (by simpa using hbm)] at ihh
          rw [List.filter_cons, if_pos (by simpa using ham),
            List.filter_cons, if_pos (by simpa using hbm)]
          show (a, b) :: adjPairs (b :: List.filter _ rest)
            = List.filter _ ((a, b) :: adjPairs (b :: rest))
          rw [List.filter_cons, if_pos (by simp [ham, hbm]), ihh]
        · have hafter : ∀ x ∈ b :: rest, x.matricula ≠ m := by
            intro x hx
            rcases List.mem_cons.mp hx with rfl | hx
            · exact hbm
            · intro hxm
              have h1 : a.matricula ≤ b.matricula := ha b (List.mem_cons_self b rest)
              have h2 : b.matricula ≤ x.matricula := hb x hx
              rw [ham] at h1
              rw [hxm] at h2
              exact hbm (le_antisymm h2 h1)
          rw [List.filter_cons, if_pos (by simpa using ham),
            filter_matricula_nil hafter]
          show ([] : List (EventoE × EventoE))
            = List.filter _ ((a, b) :: adjPairs (b :: rest))
          rw [List.filter_cons, if_neg (by simp [hbm]),
            adj_filter_matricula_nil hafter]
      · rw [List.filter_cons, if_neg (by simpa using ham), ih hl]
        show _ = List.filter _ ((a, b) :: adjPairs (b :: rest))
        rw [List.filter_cons, if_neg (by simp [ham])]

/-! ## Claim C1: the adjacent-pair conflict rule -/

/-- **C1.** For every employee and every pair of consecutive assignments `a`
(earlier start) and `b` (later start) in the start-sorted sequence, the detector
flags a conflict iff `a.end >= b.start` and `a.end`'s calendar date strictly
exceeds `b.start`'s calendar date (dates are calendar days in this model); in
particular a same-day handoff (`a` ends the day `b` starts) is never flagged. -/
theorem conflict_rule_adjacent_iff (combined_df : List EventoE)
    (pre post : List EventoE) (a b : EventoE)
    (hdec : sortCombined combined_df = pre ++ a :: b :: post)
    (hmat : a.matricula = b.matricula) :
    ((a, b) ∈ conflictPairs (sortCombined combined_df) ↔
      (b.ini ≤ a.fim ∧ b.ini < a.fim))
    ∧ (a.fim = b.ini → (a, b) ∉ conflictPairs (sortCombined combined_df)) := by
  constructor
  · constructor
    · intro h
      rcases mem_conflictPairs_iff.mp h with ⟨-, -, hlt⟩
      exact ⟨le_of_lt hlt, hlt⟩
    · intro hlt
      exact mem_conflictPairs_iff.mpr ⟨⟨pre, post, hdec⟩, hmat, hlt.2⟩
  · intro heq h
    rcases mem_conflictPairs_iff.mp h with ⟨-, -, hlt⟩
    rw [heq] at hlt
    exact lt_irrefl _ hlt

/-- P2 fixture: `A = [day 1, day 11]`. -/
def evC1A : EventoE := ⟨1, none, 1, 11, "Estaleiro", none, none, none, none⟩

/-- P2 fixture: `B = [day 10, day 20]`, same employee as `evC1A`. -/
def evC1B : EventoE := ⟨1, none, 10, 20, "Férias", none, none, none, none⟩

theorem conflict_rule_adjacent_iff_witness :
    ((evC1A, evC1B) ∈ conflictPairs (sortCombined [evC1A, evC1B]) ↔
      (evC1B.ini ≤ evC1A.fim ∧ evC1B.ini < evC1A.fim))
    ∧ (evC1A.fim = evC1B.ini →
        (evC1A, evC1B) ∉ conflictPairs (sortCombined [evC1A, evC1B])) :=
  conflict_rule_adjacent_iff [evC1A, evC1B] [] [] evC1A evC1B (by decide) (by decide)

/-! ## Claim C2: exactly the immediately-adjacent overlapping pairs -/

/-- **C2.** The conflict report has exactly one line per flagged pair, and for
every employee the flagged pairs are exactly the immediately-adjacent pairs of
that employee's start-sorted sub-frame that satisfy the overlap rule — so a
non-adjacent overlapping pair is never reported. -/
theorem conflicts_exactly_adjacent_pairs (combined_df : List EventoE) :
    (detect_conflicts_vectorized combined_df
        = (conflictPairs (sortCombined combined_df)).map fun p => formatConflito p.1 p.2)
    ∧ ∀ m : Nat,
        (conflictPairs (sortCombined combined_df)).filter
            (fun p => decide (p.1.matricula = m))
          = (adjPairs ((sortCombined combined_df).filter
              fun r => decide (r.matricula = m))).filter
              (fun p => decide (p.2.ini < p.1.fim)) := by
  constructor
  · by_cases hne : combined_df.isEmpty = true
    · rw [List.isEmpty_iff.mp hne]
      rfl
    · show (if combined_df.isEmpty then _ else _) = _
      rw [if_neg hne]
  · intro m
    rw [conflictPairs_eq_adj_filter, List.filter_filter,
      adjPairs_filter_block m _ (sortCombined_matricula_mono combined_df),
      List.filter_filter]
    refine List.filter_congr ?_
    rintro ⟨x, y⟩ -
    show (decide (x.matricula = m) && decide (conflictCond x y))
      = (decide (y.ini < x.fim) && (decide (x.matricula = m) && decide (y.matricula = m)))
    rw [← Bool.decide_and, ← Bool.decide_and, ← Bool.decide_and, decide_eq_decide]
    constructor
    · rintro ⟨h1, h2, h3⟩
      exact ⟨h3, h1, h2 ▸ h1⟩
    · rintro ⟨h1, h2, h3⟩
      exact ⟨h2, h2.trans h3.symm, h1⟩

/-! ## Claim C4: the detector's sort keys and stability -/

/-- The per-employee ordering the spec ascribes to the detector's sort:
ascending start, ties broken by ascending end. -/
def specAssignLe (a b : EventoE) : Prop :=
  a.ini < b.ini ∨ (a.ini = b.ini ∧ a.fim ≤ b.fim)

instance (a b : EventoE) : Decidable (specAssignLe a b) := by
  unfold specAssignLe; exact inferInstance

/-- C4 fixture: first inserted assignment, start day 1, end day 10. -/
def evC4A : EventoE := ⟨1, none, 1, 10, "Estaleiro", none, none, none, none⟩

/-- C4 fixture: second inserted assignment, same employee and start, earlier
end day 5. -/
def evC4B : EventoE := ⟨1, none, 1, 5, "Férias", none, none, none, none⟩

/-- **C4 counterexample.** The detector's sort keys are `['Matrícula', 'Início']`
only: on two same-start assignments of one employee whose ends are out of order,
the sorted output keeps insertion order and is *not* ordered by ascending end,
refuting the claimed `end`-ascending tie-break. -/
theorem sortCombined_no_end_tiebreak_cex :
    sortCombined [evC4A, evC4B] = [evC4A, evC4B]
    ∧ evC4A.matricula = evC4B.matricula
    ∧ evC4A.ini = evC4B.ini
    ∧ evC4B.fim < evC4A.fim
    ∧ ¬ specAssignLe evC4A evC4B := by decide

/-- **C4 (amended).** The detector sorts by employee then ascending start with a
stable sort; start ties are broken by insertion order alone (`Término` is not a
sort key), so in particular any two assignments with identical
`(Matrícula, Início)` — hence any two with identical employee, start and end —
keep their input relative order. -/
theorem sortCombined_sorted_stable (combined_df : List EventoE) :
    ((sortCombined combined_df).Pairwise fun x y =>
        x.matricula < y.matricula ∨ (x.matricula = y.matricula ∧ x.ini ≤ y.ini))
    ∧ (sortCombined combined_df).Perm combined_df
    ∧ ∀ k, ((sortCombined combined_df).filter fun r => decide (chaveEvento r = k))
        = combined_df.filter fun r => decide (chaveEvento r = k) := by
  refine ⟨?_, sortStable_perm _ _, ?_⟩
  · exact (sortStable_pairwise leEvento leEvento_total leEvento_trans _).imp
      fun h => leEvento_iff.mp h
  · intro k
    exact sortStable_filter leEvento _
      (fun x y hx hy =>
        leEvento_of_chave_eq ((of_decide_eq_true hx).trans (of_decide_eq_true hy).symm))
      combined_df

/-! ## Claim C10: empty input and singleton employees -/

theorem two_le_filter_length_of_decomp {m : Nat} {l l1 l2 : List EventoE}
    {a b : EventoE} (hdec : l = l1 ++ a :: b :: l2)
    (ha : a.matricula = m) (hb : b.matricula = m) :
    2 ≤ (l.filter fun r => decide (r.matricula = m)).length := by
  subst hdec
  rw [List.filter_append, List.filter_cons, if_pos (by simpa using ha),
    List.filter_cons, if_pos (by simpa using hb)]
  simp only [List.length_append, List.length_cons]
  omega

/-- **C10.** The detector returns an empty report on an empty combined frame;
every report line arises from an adjacent same-employee flagged pair (so the last
assignment of an employee, which has no successor, is never the first member of a
flagged pair); and an employee with at most one assignment never occurs in a
flagged pair. -/
theorem detector_empty_and_singleton :
    detect_conflicts_vectorized [] = []
    ∧ (∀ combined_df : List EventoE, ∀ c ∈ detect_conflicts_vectorized combined_df,
        ∃ p ∈ conflictPairs (sortCombined combined_df),
          c = formatConflito p.1 p.2 ∧ p.1.matricula = p.2.matricula)
    ∧ ∀ (combined_df : List EventoE) (m : Nat),
        (combined_df.filter fun r => decide (r.matricula = m)).length ≤ 1 →
        ∀ p ∈ conflictPairs (sortCombined combined_df),
          p.1.matricula ≠ m ∧ p.2.matricula ≠ m := by
  refine ⟨rfl, ?_, ?_⟩
  · intro combined_df c hc
    by_cases hne : combined_df.isEmpty = true
    · rw [show detect_conflicts_vectorized combined_df = [] from by
        rw [List.isEmpty_iff.mp hne]; rfl] at hc
      cases hc
    · rw [show detect_conflicts_vectorized combined_df
          = (conflictPairs (sortCombined combined_df)).map
              (fun p => formatConflito p.1 p.2) from by
        show (if combined_df.isEmpty then _ else _) = _
        rw [if_neg hne]] at hc
      rcases List.mem_map.mp hc with ⟨p, hp, hfmt⟩
      rcases mem_conflictPairs_iff.mp hp with ⟨-, hmat, -⟩
      exact ⟨p, hp, hfmt.symm, hmat⟩
  · intro combined_df m hlen p hp
    rcases mem_conflictPairs_iff.mp hp with ⟨⟨l1, l2, hdec⟩, hmat, -⟩
    have hperm : ((sortCombined combined_df).filter
          fun r => decide (r.matricula = m)).length
        = (combined_df.filter fun r => decide (r.matricula = m)).length :=
      ((sortStable_perm leEvento combined_df).filter _).length_eq
    constructor
    · intro h1
      have := two_le_filter_length_of_decomp hdec h1 (hmat ▸ h1)
      omega
    · intro h2
      have := two_le_filter_length_of_decomp hdec (hmat.trans h2) h2
      omega

/-- C10 fixtures: an overlapping pair for employee 7 and a lone assignment for
employee 9. -/
def evC10A : EventoE := ⟨7, some "Carla", 1, 11, "Estaleiro", none, none, none, none⟩

/-- C10 fixture: second assignment of employee 7, overlapping `evC10A`. -/
def evC10B : EventoE := ⟨7, some "Carla", 10, 20, "Férias", none, none, none, none⟩

/-- C10 fixture: the only assignment of employee 9. -/
def evC10C : EventoE := ⟨9, some "Davi", 3, 6, "Treinamento", none, none, none, none⟩

theorem detector_empty_and_singleton_witness :
    (∃ p ∈ conflictPairs (sortCombined [evC10A, evC10B, evC10C]),
      formatConflito evC10A evC10B = formatConflito p.1 p.2
        ∧ p.1.matricula = p.2.matricula)
    ∧ ∀ p ∈ conflictPairs (sortCombined [evC10A, evC10B, evC10C]),
        p.1.matricula ≠ 9 ∧ p.2.matricula ≠ 9 :=
  ⟨detector_empty_and_singleton.2.1 [evC10A, evC10B, evC10C]
      (formatConflito evC10A evC10B) (by decide),
    detector_empty_and_singleton.2.2 [evC10A, evC10B, evC10C] 9 (by decide)⟩

/-! ## The shape of `prepare_combined_data` -/

theorem prepare_fst_eq (equipe : List Membro)
    (dfs_eventos : List (Option (List Evento))) :
    (prepare_combined_data equipe dfs_eventos).1
      = ((dfs_eventos.filterMap fun odf =>
            match odf with
            | none => none
            | some df =>
              if df.isEmpty then none
              else some (df.filter fun e =>
                decide (e.matricula ∈ equipe.map fun m => m.matricula))).flatten).flatMap
          fun e =>
            match equipe.filter (fun m => decide (m.matricula = e.matricula)) with
            | [] => [⟨e.matricula, e.nome, e.ini, e.fim, e.tipo, e.detalhamento,
                none, none, none⟩]
            | ms => ms.map fun m =>
                ⟨e.matricula, e.nome.orElse (fun _ => m.nome), e.ini, e.fim, e.tipo,
                  e.detalhamento, castDisc m.disciplina, m.funcao, m.projeto⟩ := rfl

/-- Every row produced by the combine-and-merge step carries the `Matrícula` of a
roster member (the `isin(matriculas_validas)` filter ran before the merge). -/
theorem prepare_out_matched (equipe : List Membro)
    (dfs_eventos : List (Option (List Evento))) :
    ∀ r ∈ (prepare_combined_data equipe dfs_eventos).1,
      ∃ mem ∈ equipe, mem.matricula = r.matricula := by
  intro r hr
  rw [prepare_fst_eq] at hr
  rcases List.mem_flatMap.mp hr with ⟨e, he, hre⟩
  rcases List.mem_flatten.mp he with ⟨df', hdf', hedf'⟩
  rcases List.mem_filterMap.mp hdf' with ⟨odf, _, hsome⟩
  have hepred : decide (e.matricula ∈ equipe.map fun m => m.matricula) = true := by
    cases odf with
    | none => cases hsome
    | some df =>
      by_cases hie : df.isEmpty = true
      · rw [show (match some df with
            | none => none
            | some df =>
              if df.isEmpty then none
              else some (df.filter fun e =>
                decide (e.matricula ∈ equipe.map fun m => m.matricula)))
            = (if df.isEmpty then none
                else some (df.filter fun e =>
                  decide (e.matricula ∈ equipe.map fun m => m.matricula))) from rfl,
          if_pos hie] at hsome
        cases hsome
      · rw [show (match some df with
            | none => none
            | some df =>
              if df.isEmpty then none
              else some (df.filter fun e =>
                decide (e.matricula ∈ equipe.map fun m => m.matricula)))
            = (if df.isEmpty then none
                else some (df.filter fun e =>
                  decide (e.matricula ∈ equipe.map fun m => m.matricula))) from rfl,
          if_neg hie] at hsome
        injection hsome with hsome
        rw [← hsome] at hedf'
        exact (List.mem_filter.mp hedf').2
  have hmm : ∃ mem ∈ equipe, mem.matricula = e.matricula := by
    rcases List.mem_map.mp (of_decide_eq_true hepred) with ⟨mem, hmem, hmeq⟩
    exact ⟨mem, hmem, hmeq⟩
  have hrm : r.matricula = e.matricula := by
    rcases hfe : equipe.filter (fun m => decide (m.matricula = e.matricula)) with _ | ⟨m0, ms'⟩
    · rw [hfe] at hre
      rcases List.mem_singleton.mp hre with rfl
      rfl
    · rw [hfe] at hre
      rcases List.mem_map.mp hre with ⟨m1, -, hm1⟩
      rw [← hm1]
  rcases hmm with ⟨mem, hmem, hmeq⟩
  exact ⟨mem, hmem, by rw [hmeq, hrm]⟩

/-- Every source event whose `Matrícula` matches the roster survives the filter
and reaches the combined (detector-input) frame, with its dates and category
unchanged. -/
theorem prepare_mem_of_matched (equipe : List Membro)
    (dfs_eventos : List (Option (List Evento))) (df : List Evento) (e : Evento)
    (hdf : some df ∈ dfs_eventos) (he : e ∈ df)
    (hmatch : ∃ mem ∈ equipe, mem.matricula = e.matricula) :
    ∃ r ∈ (prepare_combined_data equipe dfs_eventos).1,
      r.matricula = e.matricula ∧ r.ini = e.ini ∧ r.fim = e.fim ∧ r.tipo = e.tipo := by
  rcases hmatch with ⟨mem, hmem, hmm⟩
  have hpred : decide (e.matricula ∈ equipe.map fun m => m.matricula) = true :=
    decide_eq_true (List.mem_map.mpr ⟨mem, hmem, hmm⟩)
  have hie : df.isEmpty = false := by
    cases hie : df.isEmpty
    · rfl
    · exact absurd (List.isEmpty_iff.mp hie) (List.ne_nil_of_mem he)
  have hdf' : df.filter (fun e => decide (e.matricula ∈ equipe.map fun m => m.matricula))
      ∈ dfs_eventos.filterMap fun odf =>
          match odf with
          | none => none
          | some df =>
            if df.isEmpty then none
            else some (df.filter fun e =>
              decide (e.matricula ∈ equipe.map fun m => m.matricula)) := by
    refine List.mem_filterMap.mpr ⟨some df, hdf, ?_⟩
    show (if df.isEmpty then none else _) = _
    rw [hie]
    rfl
  have hflat : e ∈ (dfs_eventos.filterMap fun odf =>
      match odf with
      | none => none
      | some df =>
        if df.isEmpty then none
        else some (df.filter fun e =>
          decide (e.matricula ∈ equipe.map fun m => m.matricula))).flatten :=
    List.mem_flatten.mpr ⟨_, hdf', List.mem_filter.mpr ⟨he, hpred⟩⟩
  rcases hfe : equipe.filter (fun m => decide (m.matricula = e.matricula)) with _ | ⟨m0, ms'⟩
  · exfalso
    have : mem ∈ equipe.filter (fun m => decide (m.matricula = e.matricula)) :=
      List.mem_filter.mpr ⟨hmem, decide_eq_true hmm⟩
    rw [hfe] at this
    cases this
  · refine ⟨⟨e.matricula, e.nome.orElse (fun _ => m0.nome), e.ini, e.fim, e.tipo,
        e.detalhamento, castDisc m0.disciplina, m0.funcao, m0.projeto⟩,
      ?_, rfl, rfl, rfl, rfl⟩
    rw [prepare_fst_eq]
    refine List.mem_flatMap.mpr ⟨e, hflat, ?_⟩
    rw [hfe]
    exact List.mem_map.mpr ⟨m0, List.mem_cons_self _ _, rfl⟩

/-! ## Claim C3: unmatched assignments at the roster join -/

/-- C3 fixture: the roster holds only employee 1. -/
def membroC3 : Membro := ⟨some "ELET", 1, some "Eng", some "P76", some "ok", some "Alice"⟩

/-- C3 fixture: an assignment for employee 2, absent from the roster. -/
def evC3 : Evento := ⟨2, some "Bob", 5, 8, "Férias", none⟩

/-- C3 fixture: an assignment for employee 1, present in the roster. -/
def evC3M : Evento := ⟨1, none, 5, 8, "Férias", none⟩

/-- **C3 counterexample.** An assignment whose `Matrícula` has no roster match is
*dropped* by `prepare_combined_data` (the `isin(matriculas_validas)` filter runs
before the merge): it does not reach the combined frame handed to the conflict
detector, refuting "kept with nulled enrichment fields, never dropped". -/
theorem prepare_drops_unmatched_cex :
    (prepare_combined_data [membroC3] [some [evC3]]).1 = []
    ∧ ¬ ∃ r ∈ (prepare_combined_data [membroC3] [some [evC3]]).1,
        r.matricula = evC3.matricula := by decide

/-- **C3 (amended).** Assignments whose `Matrícula` has no roster match are
dropped before the join and never reach the conflict detector; assignments with
a roster match are kept (dates and category unchanged) and enriched. -/
theorem prepare_keeps_iff_matched (equipe : List Membro)
    (dfs_eventos : List (Option (List Evento))) :
    (∀ x : Nat, (∀ mem ∈ equipe, mem.matricula ≠ x) →
        ∀ r ∈ (prepare_combined_data equipe dfs_eventos).1, r.matricula ≠ x)
    ∧ ∀ (df : List Evento) (e : Evento), some df ∈ dfs_eventos → e ∈ df →
        (∃ mem ∈ equipe, mem.matricula = e.matricula) →
        ∃ r ∈ (prepare_combined_data equipe dfs_eventos).1,
          r.matricula = e.matricula ∧ r.ini = e.ini ∧ r.fim = e.fim
            ∧ r.tipo = e.tipo := by
  constructor
  · intro x hx r hr hrx
    rcases prepare_out_matched equipe dfs_eventos r hr with ⟨mem, hmem, hmm⟩
    exact hx mem hmem (by rw [hmm, hrx])
  · intro df e hdf he hmatch
    exact prepare_mem_of_matched equipe dfs_eventos df e hdf he hmatch

theorem prepare_keeps_iff_matched_witness :
    (∀ r ∈ (prepare_combined_data [membroC3] [some [evC3M]]).1, r.matricula ≠ 2)
    ∧ ∃ r ∈ (prepare_combined_data [membroC3] [some [evC3M]]).1,
        r.matricula = evC3M.matricula ∧ r.ini = evC3M.ini ∧ r.fim = evC3M.fim
          ∧ r.tipo = evC3M.tipo :=
  ⟨(prepare_keeps_iff_matched [membroC3] [some [evC3M]]).1 2 (by decide),
    (prepare_keeps_iff_matched [membroC3] [some [evC3M]]).2 [evC3M] evC3M
      (by decide) (by decide) ⟨membroC3, by decide, by decide⟩⟩

/-! ## Claim C7: the report references only roster employees -/

/-- **C7.** Every assignment surviving into the report references a `Matrícula`
present in the roster snapshot (unknown ids were dropped before the report), and
the member list of the report is a permutation of the roster — no employee record
is fabricated. -/
theorem report_references_roster (equipe : List Membro)
    (dfs_eventos : List (Option (List Evento))) :
    (∀ r ∈ (prepare_combined_data equipe dfs_eventos).1,
        ∃ mem ∈ equipe, mem.matricula = r.matricula)
    ∧ (prepare_combined_data equipe dfs_eventos).2.Perm equipe :=
  ⟨prepare_out_matched equipe dfs_eventos, sortStable_perm leMembro equipe⟩

/-- C7 fixture: roster member for employee 4. -/
def membroC7 : Membro := ⟨some "MEC", 4, some "Tec", some "P70", some "ok", some "Elisa"⟩

/-- C7 fixture: an assignment of employee 4. -/
def evC7 : Evento := ⟨4, none, 2, 9, "Embarque", none⟩

/-- C7 fixture: the enriched row the pipeline produces for `evC7`. -/
def evC7E : EventoE :=
  ⟨4, some "Elisa", 2, 9, "Embarque", none, some "MEC", some "Tec", some "P70"⟩

theorem report_references_roster_witness :
    (∃ mem ∈ [membroC7], mem.matricula = evC7E.matricula)
    ∧ (prepare_combined_data [membroC7] [some [evC7]]).2.Perm [membroC7] :=
  ⟨(report_references_roster [membroC7] [some [evC7]]).1 evC7E (by decide),
    (report_references_roster [membroC7] [some [evC7]]).2⟩

/-! ## Claim C8: inverted (`start > end`) ranges -/

/-- C8 fixture: roster member for employee 3. -/
def membroC8 : Membro := ⟨some "INST", 3, some "Tec", some "P70", some "ok", some "Bruno"⟩

/-- C8 fixture: a well-formed assignment of employee 3, days 5–15. -/
def evC8A : Evento := ⟨3, none, 5, 15, "Estaleiro", none⟩

/-- C8 fixture: an inverted assignment of employee 3: start day 10 after end day 1. -/
def evC8B : Evento := ⟨3, none, 10, 1, "Férias", none⟩

/-- **C8 counterexample.** An assignment with `start > end` is silently kept by
the pipeline — no rejection, clipping or diagnostic — and is then used by the
conflict detector: here the inverted record reaches the combined frame unchanged
and participates in the single reported conflict. -/
theorem inverted_range_silently_used_cex :
    (∃ r ∈ (prepare_combined_data [membroC8] [some [evC8A, evC8B]]).1,
        r.ini = 10 ∧ r.fim = 1 ∧ r.fim < r.ini)
    ∧ (detect_conflicts_vectorized
        (prepare_combined_data [membroC8] [some [evC8A, evC8B]]).1).length = 1 := by
  decide

/-- **C8 (amended).** Records with `start > end` are kept unchanged: a
roster-matched assignment reaches the detector-input frame with its inverted
dates intact, with no validation step anywhere before conflict detection (the
legacy plot only skips drawing bars of negative duration, which does not affect
detection). -/
theorem inverted_range_kept (equipe : List Membro)
    (dfs_eventos : List (Option (List Evento))) (df : List Evento) (e : Evento)
    (hdf : some df ∈ dfs_eventos) (he : e ∈ df) (hbad : e.fim < e.ini)
    (hmatch : ∃ mem ∈ equipe, mem.matricula = e.matricula) :
    ∃ r ∈ (prepare_combined_data equipe dfs_eventos).1,
      r.matricula = e.matricula ∧ r.ini = e.ini ∧ r.fim = e.fim
        ∧ r.fim < r.ini := by
  rcases prepare_mem_of_matched equipe dfs_eventos df e hdf he hmatch with
    ⟨r, hr, h1, h2, h3, -⟩
  exact ⟨r, hr, h1, h2, h3, by rw [h2, h3]; exact hbad⟩

theorem inverted_range_kept_witness :
    ∃ r ∈ (prepare_combined_data [membroC8] [some [evC8A, evC8B]]).1,
      r.matricula = evC8B.matricula ∧ r.ini = evC8B.ini ∧ r.fim = evC8B.fim
        ∧ r.fim < r.ini :=
  inverted_range_kept [membroC8] [some [evC8A, evC8B]] [evC8A, evC8B] evC8B
    (by decide) (by decide) (by decide) ⟨membroC8, by decide, by decide⟩

/-! ## Claim C5: the availability filter -/

/-- **C5.** A roster member is excluded from the available list (i.e. marked
occupied) iff some combined event of theirs satisfies the inclusive
interval-intersection test `Início <= window.end and Término >= window.start`;
a member with no events is always available. -/
theorem get_available_members_iff (equipe : List Membro) (combined_df : List EventoE)
    (start_date end_date : Nat) (m : Membro) (hm : m ∈ equipe) :
    (m ∈ get_available_members equipe combined_df start_date end_date ↔
      ¬ ∃ ev ∈ combined_df, ev.matricula = m.matricula
          ∧ ev.ini ≤ end_date ∧ start_date ≤ ev.fim)
    ∧ ((∀ ev ∈ combined_df, ev.matricula ≠ m.matricula) →
        m ∈ get_available_members equipe combined_df start_date end_date) := by
  have hiff : m ∈ get_available_members equipe combined_df start_date end_date ↔
      ¬ ∃ ev ∈ combined_df, ev.matricula = m.matricula
          ∧ ev.ini ≤ end_date ∧ start_date ≤ ev.fim := by
    unfold get_available_members
    by_cases hne : combined_df.isEmpty = true
    · rw [if_pos hne]
      rw [List.isEmpty_iff.mp hne]
      simp [hm]
    · rw [if_neg hne, List.mem_filter]
      constructor
      · rintro ⟨-, hpred⟩ ⟨ev, hev, hmm, h1, h2⟩
        rw [Bool.not_eq_true', decide_eq_false_iff_not] at hpred
        exact hpred (List.mem_map.mpr
          ⟨ev, List.mem_filter.mpr ⟨hev, by simp [h1, h2]⟩, hmm⟩)
      · intro hno
        refine ⟨hm, ?_⟩
        rw [Bool.not_eq_true', decide_eq_false_iff_not]
        intro hmem
        rcases List.mem_map.mp hmem with ⟨ev, hevf, hmm⟩
        rcases List.mem_filter.mp hevf with ⟨hev, hcond⟩
        rw [Bool.and_eq_true] at hcond
        exact hno ⟨ev, hev, hmm, of_decide_eq_true hcond.1, of_decide_eq_true hcond.2⟩
  refine ⟨hiff, fun hno => hiff.mpr ?_⟩
  rintro ⟨ev, hev, hmm, -, -⟩
  exact hno ev hev hmm

/-- C5 fixture: roster member for employee 6. -/
def membroC5 : Membro := ⟨some "ELET", 6, some "Eng", some "P75", some "ok", some "Fábio"⟩

/-- C5 fixture (P4): an event of employee 6 touching the window start:
days 98–100 against the window `[100, 130]`. -/
def evC5 : EventoE :=
  ⟨6, some "Fábio", 98, 100, "Estaleiro", none, some "ELET", some "Eng", some "P75"⟩

theorem get_available_members_iff_witness :
    (membroC5 ∈ get_available_members [membroC5] [evC5] 100 130 ↔
      ¬ ∃ ev ∈ [evC5], ev.matricula = membroC5.matricula
          ∧ ev.ini ≤ 130 ∧ 100 ≤ ev.fim)
    ∧ ((∀ ev ∈ [evC5], ev.matricula ≠ membroC5.matricula) →
        membroC5 ∈ get_available_members [membroC5] [evC5] 100 130) :=
  get_available_members_iff [membroC5] [evC5] 100 130 membroC5 (by decide)

/-! ## Claim C6: the member ordering of the report -/

/-- **C6.** The member list of the report is sorted by the Ordering/Grouping
Policy relation (discipline in the fixed enumeration order `ELET, INST, MEC` via
its categorical code, then role, then project, then name, missing values last at
every level), it is a permutation of the roster, and the sort is stable: rows
with equal sort keys keep their input relative order. -/
theorem unique_members_sorted_stable (equipe : List Membro)
    (dfs_eventos : List (Option (List Evento))) :
    ((prepare_combined_data equipe dfs_eventos).2.Pairwise specMemberLe)
    ∧ (prepare_combined_data equipe dfs_eventos).2.Perm equipe
    ∧ ∀ k, ((prepare_combined_data equipe dfs_eventos).2.filter
          fun x => decide (chaveMembro x = k))
        = equipe.filter fun x => decide (chaveMembro x = k) := by
  refine ⟨?_, sortStable_perm leMembro equipe, ?_⟩
  · exact (sortStable_pairwise leMembro leMembro_total leMembro_trans equipe).imp
      fun h => chaveMembro_le_iff.mp (of_decide_eq_true h)
  · intro k
    exact sortStable_filter leMembro _
      (fun x y hx hy =>
        leMembro_of_chave_eq ((of_decide_eq_true hx).trans (of_decide_eq_true hy).symm))
      equipe

/-! ## Claim C9: loader error policy -/

/-- **C9 counterexample.** The legacy loaders catch only `FileNotFoundError`: a
malformed-file failure (any other exception) is not converted into an
empty/`None` result — it propagates to the caller. -/
theorem read_estaleiro_exception_escapes_cex :
    read_estaleiro_data (Except.error PdError.parseError)
      = Except.error PdError.parseError := rfl

/-- **C9 (amended).** The current dashboard's loaders convert every failure
(missing or malformed file alike) into a `None` result paired with a user-facing
message, and `prepare_combined_data` treats a `None` source as empty, so the
pipeline continues; the legacy loaders convert only the missing-file case, and
let any other exception propagate. -/
theorem loader_error_policy :
    (∀ e, load_estaleiro_data (Except.error e)
        = ((none, none), ["Erro ao carregar Estaleiro: " ++ pdMsg e]))
    ∧ (∀ e, load_ferias_data (Except.error e)
        = (none, ["Erro ao carregar Férias: " ++ pdMsg e]))
    ∧ (∀ e, load_planejamento_geral (Except.error e)
        = (none, ["Erro ao carregar Planejamento Geral: " ++ pdMsg e]))
    ∧ read_estaleiro_data (Except.error PdError.fileNotFound)
        = Except.ok ((none, none),
            ["Arquivo Planejamento Estaleiro.xlsx não encontrado. Por favor, verifique o caminho do arquivo."])
    ∧ ∀ (equipe : List Membro) (dfs_eventos : List (Option (List Evento))),
        prepare_combined_data equipe (none :: dfs_eventos)
          = prepare_combined_data equipe dfs_eventos :=
  ⟨fun _ => rfl, fun _ => rfl, fun _ => rfl, rfl, fun _ _ => rfl⟩
